import Mathlib

/-!
Verification of siibra-python core claims against a shallow embedding of
`siibra/volumes/neuroglancer.py` and `siibra/volumes/parcellationmap.py`.

Conventions of the embedding:
* Python floats are modelled as `ℚ` (all arithmetic in the relevant code paths
  is exact on the inputs we consider).
* `numpy.astype("int")` truncates toward zero; it is modelled by `pyTrunc`.
* Fallible Python code is modelled with `Except`; the error constructors name
  the Python exception raised.
* The `siibra.locations.boundingbox` module is not part of the sources; its
  data model (a pair of min/max corner points, extents `max - min`, volume the
  product of extents) is modelled from the spec where needed.
-/

set_option linter.unusedVariables false
set_option linter.deprecated false

namespace SiibraSpec

/-- A 3-vector of rationals, used for physical/voxel coordinates, resolutions
and sizes. -/
structure V3 where
  x : ℚ
  y : ℚ
  z : ℚ
  deriving DecidableEq, Repr

/-- One scale of a `NeuroglancerVolume` (`NeuroglancerScale.__init__`):
`res_nm` is the per-axis resolution in nanometers, `size` the total voxel
extent.  Chunk sizes and voxel offset are modelled separately, per axis, in
the fetch section. -/
structure NgScale where
  res_nm : V3
  size : V3
  deriving DecidableEq, Repr

/-- `NeuroglancerScale.resolves` (neuroglancer.py:167-169):
`any(r / 1e6 <= resolution_mm for r in self.res_nm)`. -/
def resolves (s : NgScale) (resolution_mm : ℚ) : Bool :=
  decide (s.res_nm.x / 1000000 ≤ resolution_mm)
    || decide (s.res_nm.y / 1000000 ≤ resolution_mm)
    || decide (s.res_nm.z / 1000000 ≤ resolution_mm)

/-- `NeuroglancerScale.__lt__` (neuroglancer.py:171-173): a scale is "less"
(finer) than another when its resolution is strictly smaller on all three
axes. -/
def scaleLT (a b : NgScale) : Bool :=
  decide (a.res_nm.x < b.res_nm.x)
    && decide (a.res_nm.y < b.res_nm.y)
    && decide (a.res_nm.z < b.res_nm.z)

/-- Python's `sorted` applied to scales, using `__lt__` as comparator.
Modelled as a stable insertion sort with the relation "not (b < a)". -/
def pySortScales (l : List NgScale) : List NgScale :=
  l.insertionSort (fun a b => scaleLT b a = false)

/-- A bounding box already expressed in some coordinate space: pair of
min/max corner points (spec, section 3: `BoundingBox`). -/
structure BBoxQ where
  min : V3
  max : V3
  deriving DecidableEq, Repr

/-- Modelled from the spec: `BoundingBox` volume is the product of the
per-axis extents `max - min`. -/
def bboxVolume (b : BBoxQ) : ℚ :=
  (b.max.x - b.min.x) * (b.max.y - b.min.y) * (b.max.z - b.min.z)

/-- Modelled from the spec: `bbox.transform(np.linalg.inv(self.affine))`
converts a physical bounding box to the scale's voxel space.  With the
default identity `transform_nm` (neuroglancer.py:61), the affine is
`diag(res_nm) / 1e6`, so each coordinate is divided by the scale's
resolution in mm. -/
def bboxToVoxel (s : NgScale) (b : BBoxQ) : BBoxQ :=
  { min := ⟨b.min.x * 1000000 / s.res_nm.x,
            b.min.y * 1000000 / s.res_nm.y,
            b.min.z * 1000000 / s.res_nm.z⟩
    max := ⟨b.max.x * 1000000 / s.res_nm.x,
            b.max.y * 1000000 / s.res_nm.y,
            b.max.z * 1000000 / s.res_nm.z⟩ }

/-- `NeuroglancerScale._estimate_nbytes` (neuroglancer.py:181-193):
element byte width times the voxel volume of the bounding box at this scale;
with no bounding box, `BoundingBox((0, 0, 0), self.size)` is used. -/
def estimateNbytes (itemsize : ℚ) (bbox : Option BBoxQ) (s : NgScale) : ℚ :=
  match bbox with
  | none => itemsize * (s.size.x * s.size.y * s.size.z)
  | some b => itemsize * bboxVolume (bboxToVoxel s b)

/-- Errors that scale selection can raise.  `indexError` models Python's
`IndexError` from `scales[my_index + 1]` (and the `IndexError`/`ValueError`
of indexing into an empty or foreign list); `infeasible` models the
`RuntimeError("Fetching bounding box ... is infeasible ...")` of
neuroglancer.py:140-143; `loopLimit` is a fuel bound of the embedding (the
Python loop would not terminate in the corresponding states). -/
inductive SelErr where
  | indexError
  | infeasible
  | loopLimit
  deriving DecidableEq, Repr

deriving instance DecidableEq for Except

/-- Python's `list.index`: index of the first occurrence. -/
def idxOf (s : NgScale) : List NgScale → Option ℕ
  | [] => none
  | a :: t => if a = s then some 0 else (idxOf s t).map (· + 1)

/-- `NeuroglancerScale.next` (neuroglancer.py:195-201).  The guard
`my_index < len(self.volume.scales)` is always true for a found index, so the
code evaluates `self.volume.scales[my_index + 1]`, which raises `IndexError`
at the last scale; the `return None` branch is unreachable. -/
def scaleNext (v : List NgScale) (s : NgScale) : Except SelErr (Option NgScale) :=
  match idxOf s v with
  | none => .error .indexError
  | some i =>
    if i < v.length then
      match v.get? (i + 1) with
      | some t => .ok (some t)
      | none => .error .indexError
    else .ok none

/-- The budget loop of `NeuroglancerVolume._select_scale`
(neuroglancer.py:135-143): while the estimate exceeds the budget, move to the
next (coarser) scale; a `None` scale would raise the infeasibility
`RuntimeError`. -/
def budgetLoop (v : List NgScale) (est : NgScale → ℚ) (B : ℚ) :
    ℕ → NgScale → Except SelErr NgScale
  | 0, _ => .error .loopLimit
  | Nat.succ fuel, s =>
    if est s ≤ B then .ok s
    else
      match scaleNext v s with
      | .error e => .error e
      | .ok none => .error .infeasible
      | .ok (some t) => budgetLoop v est B fuel t

/-- The scale `_select_scale` starts the budget loop from
(neuroglancer.py:118-133): all scales for `None` resolution (taking the last
of the sorted list), the finest for a negative resolution, otherwise the last
of the sorted suitable scales, falling back to the finest with a warning.
Returns `none` exactly when the scale list is empty (where Python would raise
an `IndexError` on `self.scales[0]`). -/
def startScale (v : List NgScale) (R : Option ℚ) : Option NgScale :=
  match R with
  | none => v.getLast?
  | some r =>
    if r < 0 then v.head?
    else
      match (pySortScales (v.filter (fun s => resolves s r))).getLast? with
      | some s => some s
      | none => v.head?

/-- `NeuroglancerVolume._select_scale` (neuroglancer.py:117-146), with the
byte budget `B` (`self.MAX_BYTES`) and the estimate function (fixing dtype
and bounding box) as parameters. -/
def selectScale (v : List NgScale) (est : NgScale → ℚ) (R : Option ℚ) (B : ℚ) :
    Except SelErr NgScale :=
  match startScale v R with
  | none => .error .indexError
  | some s0 => budgetLoop v est B (v.length + 1) s0

lemma idxOf_some_lt {s : NgScale} : ∀ {v : List NgScale} {i : ℕ},
    idxOf s v = some i → i < v.length := by
  intro v
  induction v with
  | nil => intro i h; simp [idxOf] at h
  | cons a t ih =>
    intro i h
    simp only [idxOf] at h
    by_cases ha : a = s
    · rw [if_pos ha] at h
      injection h with h0
      subst h0
      simp
    · rw [if_neg ha] at h
      cases ht : idxOf s t with
      | none => rw [ht] at h; cases h
      | some j =>
        rw [ht] at h
        simp only [Option.map_some'] at h
        injection h with h0
        subst h0
        simpa using Nat.succ_lt_succ (ih ht)

lemma scaleNext_ne_ok_none (v : List NgScale) (s : NgScale) :
    scaleNext v s ≠ .ok none := by
  unfold scaleNext
  cases h : idxOf s v with
  | none => simp
  | some i =>
    have hi := idxOf_some_lt h
    simp only [hi, if_true]
    cases hg : v.get? (i + 1) <;> simp

lemma scaleNext_error_eq (v : List NgScale) (s : NgScale) (e : SelErr) :
    scaleNext v s = .error e → e = .indexError := by
  unfold scaleNext
  cases h : idxOf s v with
  | none => intro he; cases he; rfl
  | some i =>
    have hi := idxOf_some_lt h
    simp only [hi, if_true]
    cases hg : v.get? (i + 1) <;> intro he <;> first | cases he; rfl | cases he

lemma budgetLoop_ok_le (v : List NgScale) (est : NgScale → ℚ) (B : ℚ) :
    ∀ (fuel : ℕ) (s r : NgScale), budgetLoop v est B fuel s = .ok r → est r ≤ B := by
  intro fuel
  induction fuel with
  | zero => intro s r h; simp [budgetLoop] at h
  | succ n ih =>
    intro s r h
    unfold budgetLoop at h
    by_cases hle : est s ≤ B
    · simp [hle] at h; exact h ▸ hle
    · simp [hle] at h
      cases hn : scaleNext v s with
      | error e => rw [hn] at h; cases h
      | ok o =>
        cases o with
        | none => exact absurd hn (scaleNext_ne_ok_none v s)
        | some t => rw [hn] at h; exact ih t r h

lemma budgetLoop_ne_infeasible (v : List NgScale) (est : NgScale → ℚ) (B : ℚ) :
    ∀ (fuel : ℕ) (s : NgScale), budgetLoop v est B fuel s ≠ .error .infeasible := by
  intro fuel
  induction fuel with
  | zero => intro s h; simp [budgetLoop] at h
  | succ n ih =>
    intro s h
    unfold budgetLoop at h
    by_cases hle : est s ≤ B
    · simp [hle] at h
    · simp [hle] at h
      cases hn : scaleNext v s with
      | error e =>
        rw [hn] at h
        have := scaleNext_error_eq v s e hn
        cases h
        exact absurd this (by intro hh; cases hh)
      | ok o =>
        cases o with
        | none => exact absurd hn (scaleNext_ne_ok_none v s)
        | some t => rw [hn] at h; exact ih t h

/-- The one-scale volume of the C1 demonstration: 20 micrometer resolution,
6500 voxels per axis (about 275 GB at one byte per voxel). -/
def cScaleC1 : NgScale := ⟨⟨20000, 20000, 20000⟩, ⟨6500, 6500, 6500⟩⟩

/-- C1: For every requested resolution R and for the configured byte budget,
`NeuroglancerVolume._select_scale` either returns a scale whose estimated
fetch size is at most the budget, or raises the fatal, reported infeasibility
error when the scale list is exhausted.  The first part holds; but the
reported infeasibility `RuntimeError` is unreachable: `NeuroglancerScale.next`
raises `IndexError` at the last scale (its guard `my_index < len(scales)` is
always true), contradicting its own docstring ("Returns the next scale in
this volume, of None if this is the last").  At the concrete failing input —
a volume whose single 20µm scale needs about 275 GB against the default
0.2 GiB budget — selection dies with `IndexError`, not the reported error. -/
theorem selectScale_budget_or_indexError :
    (∀ (v : List NgScale) (est : NgScale → ℚ) (R : Option ℚ) (B : ℚ) (s : NgScale),
      selectScale v est R B = .ok s → est s ≤ B)
    ∧ (∀ (v : List NgScale) (est : NgScale → ℚ) (R : Option ℚ) (B : ℚ),
      selectScale v est R B ≠ .error .infeasible)
    ∧ selectScale [cScaleC1] (estimateNbytes 1 none) none ((1073741824 : ℚ) / 5)
      = .error .indexError := by
  refine ⟨?_, ?_, ?_⟩
  · intro v est R B s h
    unfold selectScale at h
    cases hs : startScale v R with
    | none => rw [hs] at h; cases h
    | some s0 =>
      rw [hs] at h
      exact budgetLoop_ok_le v est B (v.length + 1) s0 s h
  · intro v est R B h
    unfold selectScale at h
    cases hs : startScale v R with
    | none => rw [hs] at h; cases h
    | some s0 =>
      rw [hs] at h
      exact budgetLoop_ne_infeasible v est B (v.length + 1) s0 h
  · norm_num [selectScale, startScale, budgetLoop, scaleNext, idxOf,
      estimateNbytes, cScaleC1]

/-- Witness for the hypothesis-bearing parts of the C1 theorem: on a tiny
one-scale volume (10³ voxels, 1000 bytes) with budget 1000, selection
succeeds and the theorem yields the byte bound. -/
theorem selectScale_budget_or_indexError_witness :
    estimateNbytes 1 none ⟨⟨1000000, 1000000, 1000000⟩, ⟨10, 10, 10⟩⟩ ≤ 1000 :=
  selectScale_budget_or_indexError.1
    [⟨⟨1000000, 1000000, 1000000⟩, ⟨10, 10, 10⟩⟩]
    (estimateNbytes 1 none) none 1000
    ⟨⟨1000000, 1000000, 1000000⟩, ⟨10, 10, 10⟩⟩
    (by norm_num [selectScale, startScale, budgetLoop, scaleNext, idxOf, estimateNbytes])

/-! ### C2: the candidate set of scale selection -/

/-- The candidate scale list built by `_select_scale` for a non-None,
non-negative requested resolution (neuroglancer.py:123):
`sorted(s for s in self.scales if s.resolves(resolution_mm))`. -/
def candidates (v : List NgScale) (R : ℚ) : List NgScale :=
  pySortScales (v.filter (fun s => resolves s R))

/-- The scale of the C2 counterexample: resolution 1mm on the first axis but
2mm on the other two. -/
def cScaleC2 : NgScale := ⟨⟨1000000, 2000000, 2000000⟩, ⟨10, 10, 10⟩⟩

/-- C2 counterexample: `cScaleC2` is in the candidate set for requested
resolution 1mm although its resolution is not ≤ 1mm on every axis (the y and
z axes are 2mm), because `NeuroglancerScale.resolves` tests `any` axis, not
`all`. -/
theorem candidates_counterexample :
    cScaleC2 ∈ candidates [cScaleC2] 1
    ∧ ¬ (cScaleC2.res_nm.x / 1000000 ≤ (1 : ℚ)
        ∧ cScaleC2.res_nm.y / 1000000 ≤ (1 : ℚ)
        ∧ cScaleC2.res_nm.z / 1000000 ≤ (1 : ℚ)) := by
  constructor
  · norm_num [candidates, pySortScales, List.insertionSort, List.orderedInsert,
      resolves, cScaleC2]
  · norm_num [cScaleC2]

/-- C2 (amended): for every non-None, non-negative requested resolution `R`,
a scale is in the candidate set of scale selection if and only if it is one
of the volume's scales and its physical resolution is ≤ `R` on AT LEAST ONE
of the three axes (the source tests `any`, not `every`). -/
theorem candidates_membership (v : List NgScale) (R : ℚ) (s : NgScale)
    (hR : 0 ≤ R) :
    s ∈ candidates v R
      ↔ s ∈ v ∧ (s.res_nm.x / 1000000 ≤ R ∨ s.res_nm.y / 1000000 ≤ R
          ∨ s.res_nm.z / 1000000 ≤ R) := by
  unfold candidates pySortScales
  rw [List.mem_insertionSort]
  rw [List.mem_filter]
  simp only [resolves, Bool.or_eq_true, decide_eq_true_eq]
  tauto

/-- Witness for the C2 amended theorem: concrete membership both ways. -/
theorem candidates_membership_witness :
    cScaleC2 ∈ candidates [cScaleC2] 1 :=
  (candidates_membership [cScaleC2] 1 cScaleC2 (by norm_num)).mpr
    ⟨by simp, Or.inl (by norm_num [cScaleC2])⟩

/-! ### C3: monotonicity of scale selection in the byte budget -/

lemma idxOf_getElem : ∀ (v : List NgScale), v.Nodup → ∀ (i : ℕ) (hi : i < v.length),
    idxOf (v.get ⟨i, hi⟩) v = some i := by
  intro v
  induction v with
  | nil => intro _ i hi; simp at hi
  | cons a t ih =>
    intro hnd i hi
    rcases List.nodup_cons.mp hnd with ⟨ha, hndt⟩
    match i with
    | 0 => simp [idxOf]
    | Nat.succ j =>
      have hj : j < t.length := by simpa using hi
      have hget : (a :: t).get ⟨j + 1, hi⟩ = t.get ⟨j, hj⟩ := rfl
      rw [hget]
      have hne : a ≠ t.get ⟨j, hj⟩ := by
        intro hcontra
        exact ha (hcontra ▸ t.get_mem j hj)
      simp only [idxOf, if_neg hne, ih hndt j hj, Option.map_some']

lemma scaleNext_getElem (v : List NgScale) (hnd : v.Nodup) (i : ℕ)
    (hi : i < v.length) :
    scaleNext v (v.get ⟨i, hi⟩)
      = if h : i + 1 < v.length then .ok (some (v.get ⟨i + 1, h⟩))
        else .error .indexError := by
  unfold scaleNext
  rw [idxOf_getElem v hnd i hi]
  simp only [hi, if_true]
  by_cases h : i + 1 < v.length
  · rw [dif_pos h, List.get?_eq_get h]
  · rw [dif_neg h, List.get?_eq_none.mpr (by omega)]

lemma budgetLoop_spec (v : List NgScale) (est : NgScale → ℚ) (B : ℚ)
    (hnd : v.Nodup) :
    ∀ (fuel i : ℕ) (hi : i < v.length) (s : NgScale),
      budgetLoop v est B fuel (v.get ⟨i, hi⟩) = .ok s →
      ∃ (j : ℕ) (hj : j < v.length), i ≤ j ∧ s = v.get ⟨j, hj⟩ ∧
        ∀ (k : ℕ) (hk : k < v.length), i ≤ k → k < j → B < est (v.get ⟨k, hk⟩) := by
  intro fuel
  induction fuel with
  | zero => intro i hi s h; simp [budgetLoop] at h
  | succ n ih =>
    intro i hi s h
    unfold budgetLoop at h
    by_cases hle : est (v.get ⟨i, hi⟩) ≤ B
    · rw [if_pos hle] at h
      injection h with h0
      exact ⟨i, hi, le_refl i, h0.symm, fun k hk h1 h2 => absurd (lt_of_le_of_lt h1 h2) (lt_irrefl i)⟩
    · rw [if_neg hle] at h
      rw [scaleNext_getElem v hnd i hi] at h
      by_cases hnext : i + 1 < v.length
      · rw [dif_pos hnext] at h
        obtain ⟨j, hj, hij, hs, hall⟩ := ih (i + 1) hnext s h
        refine ⟨j, hj, by omega, hs, ?_⟩
        intro k hk h1 h2
        rcases Nat.eq_or_lt_of_le h1 with rfl | hklt
        · exact lt_of_not_le hle
        · exact hall k hk (by omega) h2
      · rw [dif_neg hnext] at h
        cases h

lemma mem_of_getLast?_eq {l : List NgScale} {s : NgScale}
    (h : l.getLast? = some s) : s ∈ l := by
  have hx : s ∈ l.getLast? := h
  obtain ⟨hne, heq⟩ := List.mem_getLast?_eq_getLast hx
  exact heq ▸ List.getLast_mem hne

lemma mem_of_head?_eq {l : List NgScale} {s : NgScale}
    (h : l.head? = some s) : s ∈ l := by
  cases l with
  | nil => cases h
  | cons a t =>
    injection h with h0
    exact h0 ▸ List.mem_cons_self a t

lemma startScale_mem (v : List NgScale) (R : Option ℚ) (s : NgScale)
    (h : startScale v R = some s) : s ∈ v := by
  unfold startScale at h
  match R with
  | none => exact mem_of_getLast?_eq h
  | some r =>
    simp only at h
    by_cases hr : r < 0
    · rw [if_pos hr] at h
      exact mem_of_head?_eq h
    · rw [if_neg hr] at h
      cases hg : (pySortScales (v.filter (fun t => resolves t r))).getLast? with
      | some t =>
        rw [hg] at h
        injection h with h0
        subst h0
        have ht : t ∈ pySortScales (v.filter (fun u => resolves u r)) :=
          mem_of_getLast?_eq hg
        rw [pySortScales, List.mem_insertionSort] at ht
        exact (List.mem_filter.mp ht).1
      | none =>
        rw [hg] at h
        exact mem_of_head?_eq h

lemma scaleLT_irrefl (s : NgScale) : scaleLT s s = false := by
  simp [scaleLT]

/-- C3: scale selection is monotone in the byte budget.  For a fixed
requested resolution and bounding box (i.e. a fixed estimate function), if
`B2 < B1` and selection succeeds under both budgets, the scale selected
under the smaller budget `B2` is never finer (in the sense of
`NeuroglancerScale.__lt__`: strictly higher resolution on all three axes)
than the one selected under `B1`.  The scale list is assumed duplicate-free
and sorted as `_bootstrap` produces it (no later scale is finer than an
earlier one). -/
theorem selectScale_budget_monotone (v : List NgScale) (est : NgScale → ℚ)
    (R : Option ℚ) (B1 B2 : ℚ) (s1 s2 : NgScale)
    (hnd : v.Nodup)
    (hsorted : v.Pairwise (fun a b => scaleLT b a = false))
    (hB : B2 < B1)
    (h1 : selectScale v est R B1 = .ok s1)
    (h2 : selectScale v est R B2 = .ok s2) :
    scaleLT s2 s1 = false := by
  unfold selectScale at h1 h2
  cases hs : startScale v R with
  | none => rw [hs] at h1; cases h1
  | some s0 =>
    rw [hs] at h1 h2
    have hmem : s0 ∈ v := startScale_mem v R s0 hs
    obtain ⟨⟨i0, hi0⟩, hget⟩ := List.mem_iff_get.mp hmem
    rw [← hget] at h1 h2
    obtain ⟨j1, hj1, hij1, hs1, hall1⟩ := budgetLoop_spec v est B1 hnd _ i0 hi0 s1 h1
    obtain ⟨j2, hj2, hij2, hs2, hall2⟩ := budgetLoop_spec v est B2 hnd _ i0 hi0 s2 h2
    have hest2 : est s2 ≤ B2 := budgetLoop_ok_le v est B2 _ _ s2 h2
    have hj12 : j1 ≤ j2 := by
      by_contra hcon
      push_neg at hcon
      have := hall1 j2 hj2 hij2 hcon
      rw [← hs2] at this
      exact absurd (lt_of_le_of_lt hest2 hB) (not_lt.mpr (le_of_lt this))
    rcases Nat.eq_or_lt_of_le hj12 with heq | hlt
    · subst heq
      have : s1 = s2 := by
        rw [hs1, hs2]
      rw [this]
      exact scaleLT_irrefl s2
    · have := (List.pairwise_iff_get.mp hsorted) ⟨j1, hj1⟩ ⟨j2, hj2⟩ hlt
      rw [hs1, hs2]
      exact this

/-- The two scales of the C3 witness: a fine 1mm scale needing 100 bytes and
a coarse 2mm scale needing 10 bytes. -/
def cScaleC3a : NgScale := ⟨⟨1000000, 1000000, 1000000⟩, ⟨100, 1, 1⟩⟩

/-- Coarse scale of the C3 witness. -/
def cScaleC3b : NgScale := ⟨⟨2000000, 2000000, 2000000⟩, ⟨10, 1, 1⟩⟩

/-- Witness for C3: at resolution 1mm, budget 100 selects the fine scale and
budget 50 degrades to the coarse one; the theorem yields that the latter is
not finer. -/
theorem selectScale_budget_monotone_witness :
    scaleLT cScaleC3b cScaleC3a = false :=
  selectScale_budget_monotone [cScaleC3a, cScaleC3b] (estimateNbytes 1 none)
    (some 1) 100 50 cScaleC3a cScaleC3b
    (by norm_num [List.nodup_cons, cScaleC3a, cScaleC3b])
    (by norm_num [List.pairwise_cons, scaleLT, cScaleC3a, cScaleC3b])
    (by norm_num)
    (by norm_num [selectScale, startScale, pySortScales, List.insertionSort,
      List.orderedInsert, resolves, scaleLT, budgetLoop, scaleNext, idxOf,
      estimateNbytes, cScaleC3a, cScaleC3b])
    (by norm_num [selectScale, startScale, pySortScales, List.insertionSort,
      List.orderedInsert, resolves, scaleLT, budgetLoop, scaleNext, idxOf,
      estimateNbytes, cScaleC3a, cScaleC3b])

/-! ### C4 and C5: chunked fetch geometry (`NeuroglancerScale.fetch`) -/

/-- `numpy.astype("int")`: truncation toward zero. -/
def pyTrunc (q : ℚ) : ℤ := if 0 ≤ q then ⌊q⌋ else ⌈q⌉

/-- The per-axis bounding-box expansion of `NeuroglancerScale.fetch`
(neuroglancer.py:266-271): if the voxel extent of an axis is below 1, the
maximum is increased by 1 (with a logged warning; the fetch continues). -/
def expandAxisMax (mn mx : ℚ) : ℚ := if mx - mn < 1 then mx + 1 else mx

/-- Per-axis chunk-grid data of a scale: chunk size and voxel offset. -/
structure AxisSpec where
  c : ℕ
  voff : ℤ
  deriving DecidableEq, Repr

/-- `_point_to_lower_chunk_idx` (neuroglancer.py:219-224):
`floor((xyz - voxel_offset) / chunk_sizes)`, per axis. -/
def chunkLow (a : AxisSpec) (x : ℚ) : ℤ := ⌊(x - (a.voff : ℚ)) / (a.c : ℚ)⌋

/-- `_point_to_upper_chunk_idx` (neuroglancer.py:226-231):
`ceil((xyz - voxel_offset) / chunk_sizes)`, per axis. -/
def chunkHigh (a : AxisSpec) (x : ℚ) : ℤ := ⌈(x - (a.voff : ℚ)) / (a.c : ℚ)⌉

/-- numpy index normalization for basic slicing: negative indices count from
the end, and indices are clamped to the array length. -/
def npIndex (N i : ℤ) : ℤ := if i < 0 then max 0 (N + i) else min i N

/-- Length of the numpy slice `arr[start:stop]` on an axis of length `N`. -/
def npSliceLen (N start stop : ℤ) : ℤ := max 0 (npIndex N stop - npIndex N start)

/-- The length, along one axis, of the array returned by
`NeuroglancerScale.fetch` (neuroglancer.py:258-303): expand the axis if its
extent is below 1; compute the inclusive chunk index range `[g0, g1)`; the
assembled buffer spans `(g1 - g0) * chunk_size` voxels; the final crop is
`data[x0 : x0 + xd]` with `x0 = int(minpoint - g0 * chunk_size)` (note: the
voxel offset is NOT subtracted here, neuroglancer.py:292) and
`xd = int(shape)`. -/
def fetchAxisLen (a : AxisSpec) (mn mx0 : ℚ) : ℤ :=
  let mx := expandAxisMax mn mx0
  let g0 := chunkLow a mn
  let g1 := chunkHigh a mx
  let buf := (g1 - g0) * (a.c : ℤ)
  let dataMin := g0 * (a.c : ℤ)
  let x0 := pyTrunc (mn - (dataMin : ℚ))
  let xd := pyTrunc (mx - mn)
  npSliceLen buf x0 (x0 + xd)

/-- The (x, y, z) shape of the array returned by `NeuroglancerScale.fetch`
for a bounding box already transformed into the scale's voxel space.  (The
stored array is z-y-x ordered; we state shapes in x-y-z order.) -/
def fetchShape (ax ay az : AxisSpec) (b : BBoxQ) : ℤ × ℤ × ℤ :=
  (fetchAxisLen ax b.min.x b.max.x,
   fetchAxisLen ay b.min.y b.max.y,
   fetchAxisLen az b.min.z b.max.z)

/-- The voxel extent of a (voxel-space) bounding box as `fetch` computes it:
`np.array(bbox_.shape).astype("int")`. -/
def voxelExtent (b : BBoxQ) : ℤ × ℤ × ℤ :=
  (pyTrunc (b.max.x - b.min.x), pyTrunc (b.max.y - b.min.y),
   pyTrunc (b.max.z - b.min.z))

/-- The bounding box lies, along this axis, entirely inside chunk number `g`
of the scale's chunk grid (which is anchored at the voxel offset). -/
def chunkContainsAxis (a : AxisSpec) (g : ℤ) (mn mx : ℚ) : Bool :=
  decide (((a.voff + g * (a.c : ℤ) : ℤ) : ℚ) ≤ mn)
    && decide (mx ≤ ((a.voff + (g + 1) * (a.c : ℤ) : ℤ) : ℚ))

/-- C4 counterexample: an axis of voxel extent 1/2 is NOT expanded to an
extent of exactly 1: the fetch expansion adds 1 to the maximum, giving
extent 3/2. -/
theorem expand_axis_counterexample :
    expandAxisMax 0 (1 / 2) - 0 = 3 / 2 ∧ ((3 : ℚ) / 2 ≠ 1) := by
  norm_num [expandAxisMax]

/-- C4 (amended): during a chunked fetch, after transforming the bounding
box into the scale's voxel space, every axis whose voxel extent is less than
1 has its maximum increased by 1 — so the extent grows by exactly 1, which
reaches exactly 1 only when the extent was 0 and is at least 1 whenever the
extent was nonnegative; other axes are unchanged.  A warning is emitted and
the operation never becomes fatal for this reason (the expansion is total;
no exception is raised on this path). -/
theorem expand_axis_behaviour (mn mx : ℚ) :
    (mx - mn < 1 → expandAxisMax mn mx - mn = (mx - mn) + 1)
    ∧ (¬ (mx - mn < 1) → expandAxisMax mn mx = mx)
    ∧ (0 ≤ mx - mn → 1 ≤ expandAxisMax mn mx - mn) := by
  refine ⟨?_, ?_, ?_⟩
  · intro h
    rw [expandAxisMax, if_pos h]
    ring
  · intro h
    rw [expandAxisMax, if_neg h]
  · intro h
    rw [expandAxisMax]
    by_cases hlt : mx - mn < 1
    · rw [if_pos hlt]; linarith
    · rw [if_neg hlt]; linarith

/-- Witness for the C4 amended theorem at concrete axes. -/
theorem expand_axis_behaviour_witness :
    expandAxisMax 0 (1 / 2) - 0 = ((1 : ℚ) / 2 - 0) + 1
    ∧ expandAxisMax 0 5 = 5
    ∧ (1 : ℚ) ≤ expandAxisMax 0 (1 / 2) - 0 :=
  ⟨(expand_axis_behaviour 0 (1 / 2)).1 (by norm_num),
   (expand_axis_behaviour 0 5).2.1 (by norm_num),
   (expand_axis_behaviour 0 (1 / 2)).2.2 (by norm_num)⟩

lemma fetchAxisLen_exact (c : ℕ) (g : ℤ) (mn mx : ℚ)
    (hc : 1 ≤ (c : ℤ)) (hext : 1 ≤ mx - mn)
    (hg1 : ((g * (c : ℤ) : ℤ) : ℚ) ≤ mn)
    (hg2 : mx ≤ (((g + 1) * (c : ℤ) : ℤ) : ℚ)) :
    fetchAxisLen ⟨c, 0⟩ mn mx = pyTrunc (mx - mn) := by
  have hcQ : (0 : ℚ) < (c : ℚ) := by exact_mod_cast lt_of_lt_of_le Int.zero_lt_one hc
  have hnoexp : expandAxisMax mn mx = mx := by
    rw [expandAxisMax, if_neg (by linarith)]
  have hcast1 : ((g * (c : ℤ) : ℤ) : ℚ) = (g : ℚ) * (c : ℚ) := by push_cast; ring
  have hcast2 : (((g + 1) * (c : ℤ) : ℤ) : ℚ) = ((g : ℚ) + 1) * (c : ℚ) := by
    push_cast; ring
  rw [hcast1] at hg1
  rw [hcast2] at hg2
  have hg0 : chunkLow ⟨c, 0⟩ mn = g := by
    rw [chunkLow]
    rw [Int.floor_eq_iff]
    constructor
    · rw [le_div_iff₀ hcQ]
      simpa using hg1
    · rw [div_lt_iff₀ hcQ]
      push_cast
      nlinarith
  have hg1c : chunkHigh ⟨c, 0⟩ mx = g + 1 := by
    rw [chunkHigh]
    rw [Int.ceil_eq_iff]
    constructor
    · push_cast
      rw [lt_div_iff₀ hcQ]
      nlinarith
    · rw [div_le_iff₀ hcQ]
      push_cast
      nlinarith
  have hx0nn : (0 : ℚ) ≤ mn - ((g * (c : ℤ) : ℤ) : ℚ) := by
    rw [hcast1]; linarith
  have hx0 : pyTrunc (mn - ((g * (c : ℤ) : ℤ) : ℚ)) = ⌊mn - (g : ℚ) * (c : ℚ)⌋ := by
    rw [pyTrunc, if_pos hx0nn, hcast1]
  have hxdnn : (0 : ℚ) ≤ mx - mn := by linarith
  have hxd : pyTrunc (mx - mn) = ⌊mx - mn⌋ := by
    rw [pyTrunc, if_pos hxdnn]
  have hxdge : 1 ≤ ⌊mx - mn⌋ := by
    rw [Int.le_floor]; exact_mod_cast hext
  have hx0ge : 0 ≤ ⌊mn - (g : ℚ) * (c : ℚ)⌋ := by
    rw [Int.le_floor]; push_cast; linarith
  have hsum : ⌊mn - (g : ℚ) * (c : ℚ)⌋ + ⌊mx - mn⌋ ≤ (c : ℤ) := by
    have h1 : ⌊mn - (g : ℚ) * (c : ℚ)⌋ + ⌊mx - mn⌋ ≤ ⌊mx - (g : ℚ) * (c : ℚ)⌋ := by
      rw [Int.le_floor]
      push_cast
      have := Int.floor_le (mn - (g : ℚ) * (c : ℚ))
      have := Int.floor_le (mx - mn)
      linarith
    have h2 : ⌊mx - (g : ℚ) * (c : ℚ)⌋ ≤ (c : ℤ) := by
      rw [Int.floor_le_iff]
      push_cast
      nlinarith
    linarith
  simp only [fetchAxisLen, hnoexp, hg0, hg1c, hx0, hxd]
  rw [npSliceLen, npIndex, npIndex]
  have hbuf : (g + 1 - g) * ((c : ℕ) : ℤ) = (c : ℤ) := by ring
  rw [hbuf]
  rw [if_neg (by omega), if_neg (by omega)]
  rw [min_eq_left (by omega), min_eq_left (by omega)]
  omega

/-- C5 (amended): for every bounding box that, in the selected scale's voxel
space, has extent at least 1 and lies entirely inside one chunk of a scale
whose voxel offset is zero, the array returned by the chunked fetch has
shape equal to the voxel extent of the bounding box — the crop removes all
chunk-grid overhang.  (The zero-offset hypothesis is necessary: the crop
offset `bbox_.minpoint - data_min` at neuroglancer.py:292-293 ignores the
voxel offset that the chunk index computation subtracts, see the
counterexample.) -/
theorem fetch_shape_one_chunk (ax ay az : AxisSpec) (b : BBoxQ)
    (gx gy gz : ℤ)
    (hvx : ax.voff = 0) (hvy : ay.voff = 0) (hvz : az.voff = 0)
    (hcx : 1 ≤ ax.c) (hcy : 1 ≤ ay.c) (hcz : 1 ≤ az.c)
    (hex : 1 ≤ b.max.x - b.min.x) (hey : 1 ≤ b.max.y - b.min.y)
    (hez : 1 ≤ b.max.z - b.min.z)
    (hx : chunkContainsAxis ax gx b.min.x b.max.x = true)
    (hy : chunkContainsAxis ay gy b.min.y b.max.y = true)
    (hz : chunkContainsAxis az gz b.min.z b.max.z = true) :
    fetchShape ax ay az b = voxelExtent b := by
  obtain ⟨cx, vx⟩ := ax
  obtain ⟨cy, vy⟩ := ay
  obtain ⟨cz, vz⟩ := az
  simp only at hvx hvy hvz
  subst hvx; subst hvy; subst hvz
  simp only [chunkContainsAxis, Bool.and_eq_true, decide_eq_true_eq] at hx hy hz
  rw [fetchShape, voxelExtent]
  have hgx := fetchAxisLen_exact cx gx b.min.x b.max.x (by exact_mod_cast hcx) hex
    (by rw [show (gx * (cx : ℤ) : ℤ) = 0 + gx * (cx : ℤ) by ring]; exact hx.1)
    (by rw [show ((gx + 1) * (cx : ℤ) : ℤ) = 0 + (gx + 1) * (cx : ℤ) by ring]; exact hx.2)
  have hgy := fetchAxisLen_exact cy gy b.min.y b.max.y (by exact_mod_cast hcy) hey
    (by rw [show (gy * (cy : ℤ) : ℤ) = 0 + gy * (cy : ℤ) by ring]; exact hy.1)
    (by rw [show ((gy + 1) * (cy : ℤ) : ℤ) = 0 + (gy + 1) * (cy : ℤ) by ring]; exact hy.2)
  have hgz := fetchAxisLen_exact cz gz b.min.z b.max.z (by exact_mod_cast hcz) hez
    (by rw [show (gz * (cz : ℤ) : ℤ) = 0 + gz * (cz : ℤ) by ring]; exact hz.1)
    (by rw [show ((gz + 1) * (cz : ℤ) : ℤ) = 0 + (gz + 1) * (cz : ℤ) by ring]; exact hz.2)
  rw [hgx, hgy, hgz]

/-- The bounding box of the C5 witness. -/
def cBoxC5 : BBoxQ := ⟨⟨2, 2, 2⟩, ⟨5, 5, 5⟩⟩

/-- Witness for the C5 amended theorem: a 3³-voxel box inside the first 10³
chunk of a zero-offset scale is returned at exactly its own shape. -/
theorem fetch_shape_one_chunk_witness :
    fetchShape ⟨10, 0⟩ ⟨10, 0⟩ ⟨10, 0⟩ cBoxC5 = voxelExtent cBoxC5 :=
  fetch_shape_one_chunk ⟨10, 0⟩ ⟨10, 0⟩ ⟨10, 0⟩ cBoxC5 0 0 0 rfl rfl rfl
    (by norm_num) (by norm_num) (by norm_num)
    (by norm_num [cBoxC5]) (by norm_num [cBoxC5]) (by norm_num [cBoxC5])
    (by norm_num [chunkContainsAxis, cBoxC5]) (by norm_num [chunkContainsAxis, cBoxC5])
    (by norm_num [chunkContainsAxis, cBoxC5])

/-- The bounding box of the C5 counterexample. -/
def cBoxC5bad : BBoxQ := ⟨⟨14, 14, 14⟩, ⟨15, 15, 15⟩⟩

/-- C5 counterexample: with chunk size 10 and voxel offset 5, the 1-voxel
box [14,15]³ lies entirely inside chunk 0 (which covers voxels [5,15)), but
the fetched array is empty (shape 0 per axis) instead of 1 voxel per axis:
the crop start `int(minpoint - g0*chunk)` ignores the voxel offset and falls
outside the assembled buffer. -/
theorem fetch_shape_counterexample :
    chunkContainsAxis ⟨10, 5⟩ 0 14 15 = true
    ∧ fetchShape ⟨10, 5⟩ ⟨10, 5⟩ ⟨10, 5⟩ cBoxC5bad = (0, 0, 0)
    ∧ voxelExtent cBoxC5bad = (1, 1, 1)
    ∧ ((0, 0, 0) : ℤ × ℤ × ℤ) ≠ (1, 1, 1) := by
  refine ⟨by norm_num [chunkContainsAxis], ?_, ?_, by simp⟩
  · have hax : fetchAxisLen ⟨10, 5⟩ 14 15 = 0 := by
      have hexp : expandAxisMax 14 15 = 15 := by norm_num [expandAxisMax]
      have hlow : chunkLow ⟨10, 5⟩ 14 = 0 := by
        rw [chunkLow]
        norm_num
      have hhigh : chunkHigh ⟨10, 5⟩ 15 = 1 := by
        rw [chunkHigh]
        norm_num
      simp only [fetchAxisLen, hexp, hlow, hhigh]
      norm_num [pyTrunc, npSliceLen, npIndex]
    rw [fetchShape]
    rw [show cBoxC5bad.min.x = 14 from rfl, show cBoxC5bad.max.x = 15 from rfl,
      show cBoxC5bad.min.y = 14 from rfl, show cBoxC5bad.max.y = 15 from rfl,
      show cBoxC5bad.min.z = 14 from rfl, show cBoxC5bad.max.z = 15 from rfl]
    rw [hax]
  · norm_num [voxelExtent, cBoxC5bad, pyTrunc]

/-! ### Parcellation maps (`siibra/volumes/parcellationmap.py`) -/

/-- `MapIndex` (spec, section 3; imported by parcellationmap.py from
`..commons`, which is not among the sources).  Modelled from the spec: a
triple of volume index, optional integer label and optional fragment name. -/
structure PyMapIndex where
  volume : ℕ
  label : Option ℤ
  fragment : Option String
  deriving DecidableEq, Repr

/-- The part of a `Map`'s state the claims are about: its internal region
index table `self._indices` (region name → list of MapIndex,
parcellationmap.py:103-121). -/
structure MapState where
  indices : List (String × List PyMapIndex)
  deriving DecidableEq, Repr

/-- `MapType` (commons.py:188-190). -/
inductive MapType where
  | LABELLED
  | CONTINUOUS
  deriving DecidableEq, Repr

/-- Python exceptions raised by `Map` operations. -/
inductive PyErr where
  | http (code : ℕ)
  | unboundLocal
  | valueError
  | runtimeError
  deriving DecidableEq, Repr

/-! ### C6: remote fetch failure in `Map.fetch` -/

/-- The fetch/threshold part of `Map.fetch` (parcellationmap.py:302-315).
`providerFetch` is the result of `self.volumes[...].fetch(...)`; on a
`SiibraHttpRequestError` (modelled as `.error code`) the `except` clause
prints the message and falls through (parcellationmap.py:304-305), leaving
the local variable `result` unbound; the next statement to read `result`
(`if mapindex.label is not None: ... result.get_fdata() ...` at line 307-309
when a label is set, otherwise `if result is None` at line 313) raises
`UnboundLocalError`, modelled as `.error .unboundLocal`.  On success, a set
label converts the image to a binary mask (`result.get_fdata() == label`),
modelled by the abstract `thresholdToMask`. -/
def mapFetchResult {Img : Type} (thresholdToMask : Img → ℤ → Img)
    (providerFetch : Except ℕ Img) (label : Option ℤ) : Except PyErr Img :=
  match providerFetch with
  | .error _ => .error .unboundLocal
  | .ok img =>
    match label with
    | some l => .ok (thresholdToMask img l)
    | none => .ok img

/-- C6: the claim says a remote fetch failure is propagated so that the
caller sees the raw request error.  It is not: `Map.fetch` catches
`SiibraHttpRequestError`, prints it, and then crashes with
`UnboundLocalError` on the unbound `result` variable — the caller sees a
different error than the original one, for every failure code and label. -/
theorem map_fetch_swallows_http_error :
    ∀ (Img : Type) (thresholdToMask : Img → ℤ → Img) (code : ℕ)
      (label : Option ℤ),
      mapFetchResult thresholdToMask (.error code) label = .error .unboundLocal
      ∧ (Except.error PyErr.unboundLocal : Except PyErr Img)
          ≠ .error (.http code) := by
  intro Img thresholdToMask code label
  refine ⟨rfl, ?_⟩
  intro h
  injection h with h0
  cases h0

/-- Witness for C6 at a concrete failure: HTTP error 404, label 1. -/
theorem map_fetch_swallows_http_error_witness :
    mapFetchResult (fun (u : Unit) (_ : ℤ) => u) (.error 404) (some 1)
      = .error .unboundLocal
    ∧ (Except.error PyErr.unboundLocal : Except PyErr Unit)
      ≠ .error (.http 404) :=
  map_fetch_swallows_http_error Unit (fun u _ => u) 404 (some 1)

/-! ### C7: the return value of `Map.assign` -/

/-- One row of the assignment list built by `Map._assign_points` /
`Map._assign_image`, in the order appended at parcellationmap.py:700-703:
`[pointindex, volume, value, iou, contained, contains, correlation]`, where
`none` models `np.nan`. -/
structure AssignRow where
  structureIdx : ℕ
  volume : ℕ
  value : ℚ
  iou : Option ℚ
  containedR : Option ℚ
  containsR : Option ℚ
  correlation : Option ℚ
  deriving DecidableEq, Repr

/-- `x.astype("int")` applied to `x + 0.5`: the rounding used by
`Map._assign_points` (parcellationmap.py:698 and 718). -/
def pyRoundHalf (q : ℚ) : ℤ := pyTrunc (q + 1 / 2)

/-- Rounding of a voxel coordinate vector as `(np.dot(phys2vox,
homogeneous) + 0.5).astype("int")[:3]` computes it. -/
def roundVec (p : V3) : ℤ × ℤ × ℤ := (pyRoundHalf p.x, pyRoundHalf p.y, pyRoundHalf p.z)

/-- `Map._read_voxel` for coordinate arrays (parcellationmap.py:661-667):
for every volume (outer) and every point (inner), read the voxel value,
yielding `(pointindex, volume, value)` triples.  A volume is modelled as its
voxel-value lookup function. -/
def readVoxelMulti (vols : List ((ℤ × ℤ × ℤ) → ℚ)) (idxs : List (ℤ × ℤ × ℤ)) :
    List (ℕ × ℕ × ℚ) :=
  vols.enum.flatMap (fun ve => idxs.enum.map (fun ie => (ie.1, ve.1, ve.2 ie.2)))

/-- The voxel-precise multi-point lookup of `Map._assign_points`
(parcellationmap.py:697-703): transform all points to voxel space, add 0.5
and truncate, read every volume at the resulting indices, and keep a record
(with all four overlap scores NaN) exactly for readings whose value exceeds
`lower_threshold`. -/
def assignPointsPrecise (vols : List ((ℤ × ℤ × ℤ) → ℚ)) (phys2vox : V3 → V3)
    (pts : List V3) (thr : ℚ) : List AssignRow :=
  (readVoxelMulti vols (pts.map (fun p => roundVec (phys2vox p)))).filterMap
    (fun t => if thr < t.2.2 then
        some ⟨t.1, t.2.1, t.2.2, none, none, none, none⟩
      else none)

/-- `Map._assign_points` for a point set with constant sigma
(parcellationmap.py:686-704): `sigma_vox = sigma / scaling`; below 3 voxels
the direct multi-point lookup runs; otherwise the constant-sigma branch
returns the still-empty assignment list (the per-point Gaussian-kernel path
at lines 709-743 only handles non-constant sigmas and is outside the scope
of the claims). -/
def assignPoints (vols : List ((ℤ × ℤ × ℤ) → ℚ)) (phys2vox : V3 → V3)
    (scaling : ℚ) (pts : List V3) (sigma_mm thr : ℚ) : List AssignRow :=
  if sigma_mm / scaling < 3 then assignPointsPrecise vols phys2vox pts thr
  else []

/-- A spatial query item for `Map.assign` (parcellationmap.py:589-598):
a point with uncertainty, a point set with (constant) uncertainty, or an
image. -/
inductive QueryItem (Img : Type) where
  | point (p : V3) (sigma : ℚ)
  | pointSet (ps : List V3) (sigma : ℚ)
  | image (img : Img)

/-- The shape of a Python return value that is either a single object or a
2-tuple; `Map.assign`'s docstring promises a 2-tuple `(table, components)`. -/
inductive PyValue (Tbl Img : Type) where
  | single (t : Tbl)
  | pair (t : Tbl) (c : Option Img)

/-- `Map.assign` (parcellationmap.py:588-633): dispatch on the query type to
build the assignment list (the image branch is the abstract `assignImage`;
the pandas formatting of the list is not modelled, the list stands for the
dataframe).  `components` is initialized to `None` at line 588 and never
reassigned; the final `if components is None: return df / else: return df`
(lines 630-633) returns only the dataframe in both branches. -/
def mapAssign {Img : Type} (vols : List ((ℤ × ℤ × ℤ) → ℚ)) (phys2vox : V3 → V3)
    (scaling : ℚ) (assignImage : Img → List AssignRow)
    (item : QueryItem Img) (thr : ℚ) : PyValue (List AssignRow) Img :=
  let components : Option Img := none
  let assignments :=
    match item with
    | .point p sigma => assignPoints vols phys2vox scaling [p] sigma thr
    | .pointSet ps sigma => assignPoints vols phys2vox scaling ps sigma thr
    | .image img => assignImage img
  match components with
  | none => .single assignments
  | some _ => .single assignments

/-- C7: the claim (and the docstring, parcellationmap.py:582-585) says that
for image queries `Map.assign` returns a labelled component volume in
addition to the table, and `None` for point queries.  The code returns only
the table for every query type: `components` is never assigned, and both
return branches return `df` alone.  (The internal caller at line 737,
`T, _ = self.assign(W, ...)`, unpacks the result as a pair and breaks.) -/
theorem map_assign_returns_only_table :
    ∀ (Img : Type) (vols : List ((ℤ × ℤ × ℤ) → ℚ)) (phys2vox : V3 → V3)
      (scaling : ℚ) (assignImage : Img → List AssignRow) (thr : ℚ)
      (item : QueryItem Img),
      (∃ t, mapAssign vols phys2vox scaling assignImage item thr = .single t)
      ∧ (∀ img, mapAssign vols phys2vox scaling assignImage (.image img) thr
          = .single (assignImage img))
      ∧ (∀ t c, mapAssign vols phys2vox scaling assignImage item thr ≠ .pair t c) := by
  intro Img vols phys2vox scaling assignImage thr item
  refine ⟨?_, fun img => rfl, ?_⟩
  · cases item with
    | point p sigma => exact ⟨_, rfl⟩
    | pointSet ps sigma => exact ⟨_, rfl⟩
    | image img => exact ⟨_, rfl⟩
  · intro t c h
    cases item with
    | point p sigma => cases h
    | pointSet ps sigma => cases h
    | image img => cases h

/-- Witness for C7 at a concrete image query. -/
theorem map_assign_returns_only_table_witness :
    mapAssign [] id 1 (fun (_ : Unit) => []) (.image ()) 0 = .single [] :=
  (map_assign_returns_only_table Unit [] id 1 (fun _ => []) 0 (.image ())).2.1 ()

/-! ### C8: `Map.maptype` classification -/

/-- `Map.labels` (parcellationmap.py:220-226): the labels of all MapIndex
entries across the whole index table.  Python builds a set; we keep the
multiset as a list and use `List.dedup` where set semantics matter. -/
def labelsOf (m : MapState) : List (Option ℤ) :=
  (m.indices.flatMap (fun kv => kv.2)).map (fun d => d.label)

/-- `Map.maptype` (parcellationmap.py:228-237): LABELLED if every label is
an integer (`all(isinstance(_, int) ...)`), CONTINUOUS if the label set
equals `{None}`, otherwise the `RuntimeError("Inconsistent label indices
encountered in ...")`. -/
def maptype (m : MapState) : Except String MapType :=
  if (labelsOf m).all (fun l => l.isSome) then .ok .LABELLED
  else if (labelsOf m).dedup = [none] then .ok .CONTINUOUS
  else .error "Inconsistent label indices encountered"

lemma dedup_all_none : ∀ (l : List (Option ℤ)), l ≠ [] → (∀ a ∈ l, a = none) →
    l.dedup = [none] := by
  intro l
  induction l with
  | nil => intro h _; exact absurd rfl h
  | cons a t ih =>
    intro _ hall
    have ha : a = none := hall a (List.mem_cons_self a t)
    subst ha
    cases t with
    | nil => simp
    | cons b u =>
      have hb : b = none := hall b (List.mem_cons_of_mem none (List.mem_cons_self b u))
      have hmem : none ∈ b :: u := hb ▸ List.mem_cons_self b u
      rw [List.dedup_cons_of_mem hmem]
      exact ih (by simp) (fun x hx => hall x (List.mem_cons_of_mem none hx))

/-- C8: `Map.maptype` returns LABELLED when every label of the index table
is an integer, CONTINUOUS when the (nonempty) label set is exactly `{None}`,
and raises the fatal inconsistency `RuntimeError` when labels are mixed
(some integer, some absent). -/
theorem maptype_classification (m : MapState) :
    ((labelsOf m).all (fun l => l.isSome) = true → maptype m = .ok .LABELLED)
    ∧ ((labelsOf m ≠ [] ∧ ∀ a ∈ labelsOf m, a = none) →
        maptype m = .ok .CONTINUOUS)
    ∧ (((∃ a ∈ labelsOf m, a.isSome = true) ∧ none ∈ labelsOf m) →
        maptype m = .error "Inconsistent label indices encountered") := by
  refine ⟨?_, ?_, ?_⟩
  · intro h
    rw [maptype, if_pos h]
  · rintro ⟨hne, hall⟩
    have hfalse : (labelsOf m).all (fun l => l.isSome) = false := by
      rcases List.exists_mem_of_ne_nil _ hne with ⟨a, ha⟩
      exact List.all_eq_false.mpr ⟨a, ha, by rw [hall a ha]; simp⟩
    rw [maptype, hfalse]
    simp only [Bool.false_eq_true, if_false]
    rw [if_pos (dedup_all_none _ hne hall)]
  · rintro ⟨⟨a, ha, hsome⟩, hnone⟩
    have hfalse : (labelsOf m).all (fun l => l.isSome) = false :=
      List.all_eq_false.mpr ⟨none, hnone, by simp⟩
    have hded : (labelsOf m).dedup ≠ [none] := by
      intro hcon
      have : a ∈ (labelsOf m).dedup := List.mem_dedup.mpr ha
      rw [hcon] at this
      rcases List.mem_singleton.mp this with rfl
      cases hsome
    rw [maptype, hfalse]
    simp only [Bool.false_eq_true, if_false]
    rw [if_neg hded]

/-- Witness for C8: a two-region labelled map, a continuous map, and the
mixed map obtained by adding a label-less region to the labelled one. -/
theorem maptype_classification_witness :
    maptype ⟨[("A", [⟨0, some 1, none⟩]), ("B", [⟨0, some 2, none⟩])]⟩
        = .ok .LABELLED
    ∧ maptype ⟨[("A", [⟨0, none, none⟩]), ("B", [⟨1, none, none⟩])]⟩
        = .ok .CONTINUOUS
    ∧ maptype ⟨[("A", [⟨0, some 1, none⟩]), ("B", [⟨0, some 2, none⟩]),
        ("C", [⟨1, none, none⟩])]⟩
        = .error "Inconsistent label indices encountered" :=
  ⟨(maptype_classification _).1 (by decide),
   (maptype_classification _).2.1 (by decide),
   (maptype_classification _).2.2 (by refine ⟨⟨some 1, ?_, rfl⟩, ?_⟩ <;> decide)⟩

/-! ### C9: voxel-precise point assignment -/

lemma mem_readVoxelMulti (vols : List ((ℤ × ℤ × ℤ) → ℚ))
    (idxs : List (ℤ × ℤ × ℤ)) (t : ℕ × ℕ × ℚ) :
    t ∈ readVoxelMulti vols idxs ↔
      ∃ (v : ℕ) (f : (ℤ × ℤ × ℤ) → ℚ) (i : ℕ) (c : ℤ × ℤ × ℤ),
        vols.get? v = some f ∧ idxs.get? i = some c ∧ t = (i, v, f c) := by
  unfold readVoxelMulti
  rw [List.mem_flatMap]
  constructor
  · rintro ⟨ve, hve, ht⟩
    rw [List.mem_map] at ht
    obtain ⟨ie, hie, hteq⟩ := ht
    rw [List.mem_enum_iff_get?] at hve hie
    exact ⟨ve.1, ve.2, ie.1, ie.2, hve, hie, hteq.symm⟩
  · rintro ⟨v, f, i, c, hv, hi, rfl⟩
    refine ⟨(v, f), List.mem_enum_iff_get?.mpr hv, ?_⟩
    rw [List.mem_map]
    exact ⟨(i, c), List.mem_enum_iff_get?.mpr hi, rfl⟩

/-- C9 (amended): for every point-set query with constant positional
uncertainty whose sigma is below 3 voxels, assignment transforms each
coordinate to voxel space, rounds it by adding one half and truncating
toward zero — which equals rounding to the nearest integer exactly for
coordinates ≥ −1/2, i.e. all coordinates that can fall inside the array —
reads the value there in every volume, and produces an assignment record
exactly for the readings whose value is strictly greater than
`lower_threshold`, with the correlation, IoU, contains and contained
columns left undefined (NaN). -/
theorem assign_points_precise_spec (vols : List ((ℤ × ℤ × ℤ) → ℚ))
    (phys2vox : V3 → V3) (scaling : ℚ) (pts : List V3) (sigma_mm thr : ℚ)
    (hsig : sigma_mm / scaling < 3) :
    (assignPoints vols phys2vox scaling pts sigma_mm thr
        = assignPointsPrecise vols phys2vox pts thr)
    ∧ (∀ r : AssignRow, r ∈ assignPointsPrecise vols phys2vox pts thr ↔
        ∃ (i v : ℕ) (p : V3) (f : (ℤ × ℤ × ℤ) → ℚ),
          pts.get? i = some p ∧ vols.get? v = some f
          ∧ thr < f (roundVec (phys2vox p))
          ∧ r = ⟨i, v, f (roundVec (phys2vox p)), none, none, none, none⟩)
    ∧ (∀ q : ℚ, -(1 / 2) ≤ q → pyRoundHalf q = round q)
    ∧ (∀ q : ℚ, -(1 / 2) ≤ q → |q - (pyRoundHalf q : ℚ)| ≤ 1 / 2) := by
  refine ⟨by rw [assignPoints, if_pos hsig], ?_, ?_, ?_⟩
  · intro r
    unfold assignPointsPrecise
    rw [List.mem_filterMap]
    constructor
    · rintro ⟨t, ht, hf⟩
      rw [mem_readVoxelMulti] at ht
      obtain ⟨v, f, i, c, hv, hi, rfl⟩ := ht
      rw [List.get?_map] at hi
      cases hp : pts.get? i with
      | none => rw [hp] at hi; cases hi
      | some p =>
        rw [hp] at hi
        injection hi with hi0
        by_cases hthr : thr < f c
        · rw [if_pos hthr] at hf
          injection hf with hf0
          subst hf0
          subst hi0
          exact ⟨i, v, p, f, hp, hv, hthr, rfl⟩
        · rw [if_neg hthr] at hf
          cases hf
    · rintro ⟨i, v, p, f, hp, hv, hthr, rfl⟩
      refine ⟨(i, v, f (roundVec (phys2vox p))), ?_, ?_⟩
      · rw [mem_readVoxelMulti]
        exact ⟨v, f, i, roundVec (phys2vox p), hv,
          by rw [List.get?_map, hp]; rfl, rfl⟩
      · rw [if_pos hthr]
  · intro q hq
    rw [pyRoundHalf, pyTrunc, if_pos (by linarith), round_eq]
  · intro q hq
    rw [pyRoundHalf, pyTrunc, if_pos (by linarith), ← round_eq]
    exact abs_sub_round q

/-- The volume of the C9 counterexample: value 7 at voxel (−1,0,0), value 5
at voxel (0,0,0), zero elsewhere. -/
def cVolC9 : (ℤ × ℤ × ℤ) → ℚ :=
  fun c => if c = (-1, 0, 0) then 7 else if c = (0, 0, 0) then 5 else 0

/-- The point of the C9 counterexample, already in voxel coordinates
(identity `phys2vox`). -/
def cPtC9 : V3 := ⟨-(7 / 10), 0, 0⟩

/-- C9 counterexample: for the exact point x = −0.7 (sigma 0, threshold 0,
identity transform), the code reads voxel 0 (value 5) because
`(x + 0.5).astype("int")` truncates −0.2 toward zero, while the nearest
integer index is −1 (value 7): the produced record does not carry the value
at the nearest integer index, refuting the claim as stated. -/
theorem assign_points_counterexample :
    assignPoints [cVolC9] id 1 [cPtC9] 0 0
      = [⟨0, 0, 5, none, none, none, none⟩]
    ∧ round ((-7 : ℚ) / 10) = -1
    ∧ cVolC9 (-1, 0, 0) = 7
    ∧ ¬ (|(-7 / 10 : ℚ) - ((0 : ℤ) : ℚ)| ≤ 1 / 2)
    ∧ (5 : ℚ) ≠ 7 := by
  refine ⟨?_, ?_, by decide, ?_, by norm_num⟩
  · have hcoord : roundVec (id cPtC9) = (0, 0, 0) := by
      rw [roundVec]
      norm_num [cPtC9, pyRoundHalf, pyTrunc, Prod.mk.injEq]
    rw [assignPoints, if_pos (by norm_num)]
    rw [assignPointsPrecise, List.map_singleton, hcoord]
    rw [show readVoxelMulti [cVolC9] [(0, 0, 0)] = [(0, 0, cVolC9 (0, 0, 0))] from rfl]
    rw [show cVolC9 (0, 0, 0) = 5 from by decide]
    rw [List.filterMap_cons, List.filterMap_nil]
    norm_num
  · rw [round_eq]
    norm_num
  · intro h
    rw [Int.cast_zero, sub_zero, abs_of_nonpos (by norm_num)] at h
    norm_num at h

/-- Witness for the C9 amended theorem: concrete instantiation of the
sigma-guard and of the rounding equivalence for a nonnegative coordinate. -/
theorem assign_points_precise_spec_witness :
    assignPoints [cVolC9] id 1 [⟨0, 0, 0⟩] 0 0
      = assignPointsPrecise [cVolC9] id [⟨0, 0, 0⟩] 0
    ∧ pyRoundHalf (1 / 4) = round ((1 : ℚ) / 4) :=
  ⟨(assign_points_precise_spec [cVolC9] id 1 [⟨0, 0, 0⟩] 0 0 (by norm_num)).1,
   (assign_points_precise_spec [cVolC9] id 1 [⟨0, 0, 0⟩] 0 0 (by norm_num)).2.2.1
     (1 / 4) (by norm_num)⟩

/-! ### C10: `Map.fetch` with a `fragment` argument mutates the stored index -/

/-- `Map.find_indices` for a region name that is an exact key of the index
table (parcellationmap.py:168-172; the fuzzy `self.parcellation.find` branch
consults the external registry and is out of scope).  The dict comprehension
`{idx: region for idx in self._indices[region]}` keeps one entry per
distinct MapIndex, modelled by `dedup`. -/
def findIndicesExact (m : MapState) (region : String) : List PyMapIndex :=
  match m.indices.lookup region with
  | some l => l.dedup
  | none => []

/-- `Map.get_index` (parcellationmap.py:143-163): error when the region
matches more than one index or none, otherwise the unique match — which is
the `MapIndex` object stored in `self._indices` itself, not a copy. -/
def getIndex (m : MapState) (region : String) : Except PyErr PyMapIndex :=
  match findIndicesExact m region with
  | [idx] => .ok idx
  | _ => .error .runtimeError

/-- Overwriting, inside the stored index table, the `MapIndex` object that
`get_index` returned: since Python hands out a reference, the assignment
`mapindex.fragment = kwargs.pop("fragment")` (parcellationmap.py:295) is
visible through `self._indices`.  The functional embedding rewrites the
stored entry. -/
def updateStored (l : List (String × List PyMapIndex)) (region : String)
    (old new : PyMapIndex) : List (String × List PyMapIndex) :=
  l.map (fun kv => if kv.1 = region
    then (kv.1, kv.2.map (fun i => if i = old then new else i))
    else kv)

/-- The fragment handling of `Map.fetch` (parcellationmap.py:276-295) for a
region-name specification: resolve the region to its unique stored MapIndex;
raise `ValueError` when a different fragment is already set; otherwise
overwrite the object's fragment field in place (modelled by returning the
updated map state together with the mutated index). -/
def fetchWithFragment (m : MapState) (region : String) (frag : String) :
    Except PyErr (MapState × PyMapIndex) :=
  match getIndex m region with
  | .error e => .error e
  | .ok idx =>
    if idx.fragment ≠ none ∧ idx.fragment ≠ some frag then .error .valueError
    else
      let idx2 := { idx with fragment := some frag }
      .ok (⟨updateStored m.indices region idx idx2⟩, idx2)

lemma lookup_updateStored (region : String) (old new : PyMapIndex) :
    ∀ (l : List (String × List PyMapIndex)) (v : List PyMapIndex),
      l.lookup region = some v →
      (updateStored l region old new).lookup region
        = some (v.map (fun i => if i = old then new else i)) := by
  intro l
  induction l with
  | nil => intro v h; cases h
  | cons kv t ih =>
    intro v h
    obtain ⟨k, w⟩ := kv
    rw [List.lookup_cons] at h
    simp only [updateStored, List.map_cons]
    cases hbeq : (region == k) with
    | true =>
      rw [hbeq] at h
      injection h with h0
      subst h0
      have hk : k = region := (eq_of_beq hbeq).symm
      rw [if_pos hk]
      rw [List.lookup_cons, hbeq]
    | false =>
      rw [hbeq] at h
      have hk : ¬ (k = region) := by
        intro hcon
        rw [hcon] at hbeq
        simp at hbeq
      rw [if_neg hk]
      rw [List.lookup_cons, hbeq]
      have ih2 := ih v h
      simpa only [updateStored] using ih2

/-- C10: `Map.fetch` called with a `fragment` keyword argument overwrites
the `fragment` field of the resolved `MapIndex` in place; when the map entry
was resolved from a region name, the mutated object is the `MapIndex` stored
in the map's own index table, so the mutation persists in the map across
calls — a subsequent `get_index` for the same region returns the index with
the overwritten fragment. -/
theorem fetch_fragment_mutates_stored_index (m : MapState) (region frag : String)
    (idx : PyMapIndex)
    (h : m.indices.lookup region = some [idx])
    (hfrag : idx.fragment = none ∨ idx.fragment = some frag) :
    fetchWithFragment m region frag
      = .ok (⟨updateStored m.indices region idx { idx with fragment := some frag }⟩,
             { idx with fragment := some frag })
    ∧ (updateStored m.indices region idx
          { idx with fragment := some frag }).lookup region
        = some [{ idx with fragment := some frag }]
    ∧ getIndex ⟨updateStored m.indices region idx { idx with fragment := some frag }⟩
        region = .ok { idx with fragment := some frag } := by
  have hget : getIndex m region = .ok idx := by
    unfold getIndex findIndicesExact
    rw [h]
    simp
  have hcond : ¬ (idx.fragment ≠ none ∧ idx.fragment ≠ some frag) := by
    rcases hfrag with h0 | h0
    · intro hc; exact hc.1 h0
    · intro hc; exact hc.2 h0
  have hupd : (updateStored m.indices region idx
      { idx with fragment := some frag }).lookup region
      = some [{ idx with fragment := some frag }] := by
    have hl := lookup_updateStored region idx { idx with fragment := some frag }
      m.indices [idx] h
    simpa using hl
  refine ⟨?_, hupd, ?_⟩
  · unfold fetchWithFragment
    rw [hget]
    show (if idx.fragment ≠ none ∧ idx.fragment ≠ some frag
        then (Except.error PyErr.valueError : Except PyErr (MapState × PyMapIndex))
        else Except.ok (⟨updateStored m.indices region idx
            { idx with fragment := some frag }⟩, { idx with fragment := some frag }))
      = Except.ok (⟨updateStored m.indices region idx
          { idx with fragment := some frag }⟩, { idx with fragment := some frag })
    rw [if_neg hcond]
  · unfold getIndex findIndicesExact
    rw [show (MapState.mk (updateStored m.indices region idx
        { idx with fragment := some frag })).indices
      = updateStored m.indices region idx { idx with fragment := some frag } from rfl]
    rw [hupd]
    simp

/-- The one-region map of the C10 witness. -/
def cMapC10 : MapState := ⟨[("area A", [⟨0, some 1, none⟩])]⟩

/-- Witness for C10: fetching region "area A" with fragment "left" leaves
the fragment stored in the map's index table. -/
theorem fetch_fragment_mutates_stored_index_witness :
    (updateStored cMapC10.indices "area A" ⟨0, some 1, none⟩
        ⟨0, some 1, some "left"⟩).lookup "area A"
      = some [⟨0, some 1, some "left"⟩] :=
  (fetch_fragment_mutates_stored_index cMapC10 "area A" "left" ⟨0, some 1, none⟩
    rfl (Or.inl rfl)).2.1

end SiibraSpec
